import Mathlib

/-!
Verification of the password-generation core (`core.py`) of the repository:
pool construction (`build_pool`), class-membership slices (`build_pool_map`),
constraint validation (`ensure_requirements`), secure generation
(`generate_passwords` with Fisher-Yates `secure_shuffle`, per-class seeding
`pick_from_each_class`), and entropy estimation (`bits_of_entropy`).

Modelling conventions:
- strings are `List Char`; Python sets followed by `sorted` become
  `sorted_set` (dedup then insertion sort by codepoint, which agrees with
  Python's `sorted` on duplicate-free data);
- the cryptographic random source (`secrets.randbelow` / `secrets.choice`)
  is an arbitrary stream `g : Nat → Nat` of draws together with a running
  index; `randbelow g ix n = g ix % n` always lies below `n` for `n > 0`,
  which is the only property of the CSPRNG the functional claims use;
- `sys.exit(...)` failures become `Except` errors; the `IndexError`
  raised by `secrets.choice` on an empty sequence becomes `Option.none`,
  surfaced as `GenError.emptyClassDraw` (inside per-class seeding) or
  `GenError.emptyPoolDraw` (while filling from the whole pool);
- `math.log2` is an untranslatable float transcendental: `bits_of_entropy`
  abstracts it as a function parameter, keeping the branch structure exact.
-/

open List

/-- Characters `a`-`z`, Python `string.ascii_lowercase`. -/
def ascii_lowercase : List Char := (List.range 26).map (fun i => Char.ofNat (97 + i))

/-- Characters `A`-`Z`, Python `string.ascii_uppercase`. -/
def ascii_uppercase : List Char := (List.range 26).map (fun i => Char.ofNat (65 + i))

/-- Characters `0`-`9`, Python `string.digits`. -/
def ascii_digits : List Char := (List.range 10).map (fun i => Char.ofNat (48 + i))

/-- Codepoint test for ASCII punctuation: codes 33-47, 58-64, 91-96, 123-126. -/
def punct_code (n : Nat) : Bool :=
  (33 ≤ n && n ≤ 47) || (58 ≤ n && n ≤ 64) || (91 ≤ n && n ≤ 96) || (123 ≤ n && n ≤ 126)

/-- The 32 ASCII punctuation characters, Python `string.punctuation`. -/
def punctuation : List Char := ((List.range 128).filter punct_code).map Char.ofNat

/-- Codepoints of the look-alike glyphs `O 0 o I l 1 | backtick apostrophe quote
braces brackets parens slashes semicolon colon comma dot angle-brackets`,
Python `AMBIGUOUS_DEFAULT = set("O0oIl1|` + quoting + `;:,.<>")`. -/
def AMBIGUOUS_DEFAULT : List Char :=
  ([79, 48, 111, 73, 108, 49, 124, 96, 39, 34, 123, 125, 91, 93, 40, 41, 47, 92,
    59, 58, 44, 46, 60, 62] : List Nat).map Char.ofNat

/-- The whitespace characters the pool builder strips: CR, LF, TAB, space. -/
def whitespace_chars : List Char := ([13, 10, 9, 32] : List Nat).map Char.ofNat

/-- Python `URL_SAFE_UNRESERVED`: upper-case letters, lower-case letters, digits
and `- . _ ~` (codes 45, 46, 95, 126), 66 characters with the 64 distinct ones
of the RFC 3986 unreserved set. -/
def URL_SAFE_UNRESERVED : List Char :=
  ascii_uppercase ++ ascii_lowercase ++ ascii_digits ++
    (([45, 46, 95, 126] : List Nat).map Char.ofNat)

/-- Python `"".join(sorted(set(l)))`: deduplicate, then sort by codepoint. -/
def sorted_set (l : List Char) : List Char :=
  List.insertionSort (fun a b => a ≤ b) l.dedup

/-- The argument fields of `build_pool`: class flags, symbols override,
exclusion set, ambiguous-filter flag and url-safe flag. -/
structure Selection where
  lower : Bool
  upper : Bool
  digits : Bool
  symbols : Bool
  symbols_set : Option (List Char)
  exclude : List Char
  no_ambiguous : Bool
  url_safe : Bool
deriving DecidableEq

/-- Failures of `build_pool` (Python `sys.exit` messages). -/
inductive PoolError where
  | emptySelection
  | emptyPool
deriving DecidableEq

/-- Python `includes_specified`: `any([args.lower, args.upper, args.digits, args.symbols])`. -/
def includes_specified (s : Selection) : Bool :=
  s.lower || s.upper || s.digits || s.symbols

/-- Whether a class contributes to the pool: its own flag if any flag was
given, else `true` (all four classes default to active). -/
def selected_class (s : Selection) (flag : Bool) : Bool :=
  if includes_specified s then flag else true

/-- The `pool_parts` list of `build_pool`, in the Python dict order
`lower, upper, digits, symbols`; the symbols entry is the caller override
when present, else `string.punctuation`. -/
def build_pool_parts (s : Selection) : List (List Char) :=
  if s.url_safe then [URL_SAFE_UNRESERVED]
  else
    (if selected_class s s.lower then [ascii_lowercase] else []) ++
    (if selected_class s s.upper then [ascii_uppercase] else []) ++
    (if selected_class s s.digits then [ascii_digits] else []) ++
    (if selected_class s s.symbols then [s.symbols_set.getD punctuation] else [])

/-- The `class_names` list of `build_pool`, in the same order as the parts. -/
def build_class_names (s : Selection) : List String :=
  if s.url_safe then ["url_safe"]
  else
    (if selected_class s s.lower then ["lower"] else []) ++
    (if selected_class s s.upper then ["upper"] else []) ++
    (if selected_class s s.digits then ["digits"] else []) ++
    (if selected_class s s.symbols then ["symbols"] else [])

/-- Python `build_pool(args)`: merge the selected class sets, filter the
ambiguous set (unless url-safe), the exclusion set, and whitespace, and
return the sorted deduplicated pool with the active class names. -/
def build_pool (s : Selection) : Except PoolError (List Char × List String) :=
  if (build_pool_parts s).isEmpty then .error .emptySelection
  else
    let pool0 := (build_pool_parts s).flatten
    let pool1 :=
      if s.no_ambiguous && !s.url_safe then
        pool0.filter (fun c => decide (c ∉ AMBIGUOUS_DEFAULT))
      else pool0
    let pool2 := pool1.filter (fun c => decide (c ∉ s.exclude))
    let pool3 := pool2.filter (fun c => decide (c ∉ whitespace_chars))
    if pool3.isEmpty then .error .emptyPool
    else .ok (sorted_set pool3, build_class_names s)

/-- Python `build_pool_map(pool)`: the four class slices of the pool, each the
sorted intersection of the pool with the class's FIXED base set (the symbols
slice always uses `string.punctuation`, never the caller override); `none`
models the dict having no other keys. -/
def build_pool_map (pool : List Char) : String → Option (List Char) := fun name =>
  if name = "lower" then some (sorted_set (pool.filter (fun c => decide (c ∈ ascii_lowercase))))
  else if name = "upper" then some (sorted_set (pool.filter (fun c => decide (c ∈ ascii_uppercase))))
  else if name = "digits" then some (sorted_set (pool.filter (fun c => decide (c ∈ ascii_digits))))
  else if name = "symbols" then some (sorted_set (pool.filter (fun c => decide (c ∈ punctuation))))
  else none

/-- Spec-side `class_membership`: as the spec words it, each class slice is the
intersection of the pool with that class's base character set, the symbols base
being the caller-supplied override when one is provided, else standard ASCII
punctuation. Written only to be compared with the code's `build_pool_map`. -/
def class_membership_spec (symbols_set : Option (List Char)) (pool : List Char) :
    String → Option (List Char) := fun name =>
  if name = "lower" then some (sorted_set (pool.filter (fun c => decide (c ∈ ascii_lowercase))))
  else if name = "upper" then some (sorted_set (pool.filter (fun c => decide (c ∈ ascii_uppercase))))
  else if name = "digits" then some (sorted_set (pool.filter (fun c => decide (c ∈ ascii_digits))))
  else if name = "symbols" then
    some (sorted_set (pool.filter (fun c => decide (c ∈ symbols_set.getD punctuation))))
  else none

/-- Failures of `ensure_requirements` (Python `sys.exit` messages). -/
inductive ValidationError where
  | invalidLength
  | poolTooSmall
  | unsatisfiableClass (missing : List String)
  | lengthBelowClassCount
deriving DecidableEq

/-- Python `ensure_requirements(length, class_names, require_classes, no_repeat, pool)`:
reject length < 1; reject no-repeat lengths beyond the pool size; when classes
are required and `"url_safe"` is not among the names, reject empty class slices
(listing them) and lengths below the class count. -/
def ensure_requirements (length : Int) (class_names : List String)
    (require_classes no_repeat : Bool) (pool : List Char) : Except ValidationError Unit :=
  if length < 1 then .error .invalidLength
  else if no_repeat && decide ((pool.length : Int) < length) then .error .poolTooSmall
  else if require_classes && !(decide ("url_safe" ∈ class_names)) then
    let missing := class_names.filter (fun n => ((build_pool_map pool n).getD []).isEmpty)
    if missing.isEmpty = false then .error (.unsatisfiableClass missing)
    else if length < (class_names.length : Int) then .error .lengthBelowClassCount
    else .ok ()
  else .ok ()

/-- Spec-side validator, written from the specification's words: `InvalidLength`
iff length < 1, else `PoolTooSmall` iff no-repeat and length exceeds pool size,
else, when classes are required and the active classes are not the `url_safe`
sentinel, `UnsatisfiableClass` listing exactly the classes with an empty pool
slice, else `LengthBelowClassCount` iff length is below the class count,
else Ok. Written only to be compared with the code's `ensure_requirements`. -/
def validate_spec (length : Int) (class_names : List String)
    (require_classes no_repeat : Bool) (pool : List Char) : Except ValidationError Unit :=
  if length < 1 then .error .invalidLength
  else if no_repeat = true ∧ (pool.length : Int) < length then .error .poolTooSmall
  else if require_classes = true ∧ class_names ≠ ["url_safe"] then
    let missing := class_names.filter (fun n => ((build_pool_map pool n).getD []).isEmpty)
    if missing ≠ [] then .error (.unsatisfiableClass missing)
    else if length < (class_names.length : Int) then .error .lengthBelowClassCount
    else .ok ()
  else .ok ()

/-- Stream of raw draws from the cryptographic random source. -/
abbrev Gen := Nat → Nat

/-- Python `secrets.randbelow(n)` at stream position `ix`: an arbitrary draw
reduced below `n` (for `n > 0` the result is `< n`, the only property used). -/
def randbelow (g : Gen) (ix n : Nat) : Nat := g ix % n

/-- Python `secrets.choice(s)`: index the sequence at a random position,
consuming one draw; `none` models the exception raised on an empty sequence. -/
def choice (g : Gen) (s : List Char) (ix : Nat) : Option (Char × Nat) :=
  match s[randbelow g ix s.length]? with
  | none => none
  | some c => some (c, ix + 1)

/-- Swap the elements at positions `i` and `j` (identity when out of range):
the body of one Fisher-Yates iteration `lst[i], lst[j] = lst[j], lst[i]`. -/
def listSwap (l : List Char) (i j : Nat) : List Char :=
  match l[i]?, l[j]? with
  | some a, some b => (l.set i b).set j a
  | _, _ => l

/-- Descending Fisher-Yates loop: at index `i + 1` swap with a random
position in `[0, i + 1]`, then continue at `i`. -/
def secure_shuffle_go (g : Gen) : Nat → List Char → Nat → List Char × Nat
  | 0, l, ix => (l, ix)
  | i + 1, l, ix => secure_shuffle_go g i (listSwap l (i + 1) (randbelow g ix (i + 2))) (ix + 1)

/-- Python `secure_shuffle(lst)`: Fisher-Yates from `len(lst) - 1` down to 1,
one `randbelow` draw per step. -/
def secure_shuffle (g : Gen) (l : List Char) (ix : Nat) : List Char × Nat :=
  secure_shuffle_go g (l.length - 1) l ix

/-- Python `pick_from_each_class(class_names, pool_map)`: one `secrets.choice`
from each named class's slice, in order, skipping `"url_safe"`; `none` models
the `KeyError` on an unknown name or the choice failure on an empty slice. -/
def pick_from_each_class (g : Gen) (class_names : List String)
    (pm : String → Option (List Char)) (ix : Nat) : Option (List Char × Nat) :=
  match class_names with
  | [] => some ([], ix)
  | n :: rest =>
    if n = "url_safe" then pick_from_each_class g rest pm ix
    else
      match pm n with
      | none => none
      | some s =>
        match choice g s ix with
        | none => none
        | some (c, ix1) =>
          match pick_from_each_class g rest pm ix1 with
          | none => none
          | some (cs, ix2) => some (c :: cs, ix2)

/-- The `for _i in range(remaining): chars.append(choice(pool))` fill loop:
`remaining` independent draws from the full pool, in order. -/
def fill_choices (g : Gen) (pool : List Char) : Nat → Nat → Option (List Char × Nat)
  | 0, ix => some ([], ix)
  | n + 1, ix =>
    match choice g pool ix with
    | none => none
    | some (c, ix1) =>
      match fill_choices g pool n ix1 with
      | none => none
      | some (cs, ix2) => some (c :: cs, ix2)

/-- The generation-config fields of `args` read by `generate_passwords`. -/
structure Args where
  count : Nat
  length : Int
  require_classes : Bool
  url_safe : Bool
  no_repeat : Bool
  prefixStr : List Char
  suffixStr : List Char
deriving DecidableEq

/-- Failures inside `generate_passwords`: a `secrets.choice` on an empty class
slice (or a missing pool-map key) during seeding, a `secrets.choice` on an
empty pool during the with-repetition fill, and the explicit
`sys.exit("not enough unique characters ...")` of the no-repeat branch. -/
inductive GenError where
  | emptyClassDraw
  | emptyPoolDraw
  | insufficientUnique
deriving DecidableEq

/-- One iteration of the `for _ in range(args.count)` loop of
`generate_passwords`, returning the shuffled core (before prefix/suffix
assembly) and the advanced stream position: optional per-class seeding, the
floored remainder, the no-repeat or with-repetition fill, final shuffle. -/
def generate_one (g : Gen) (pool : List Char) (pm : String → Option (List Char))
    (class_names : List String) (a : Args) (ix : Nat) : Except GenError (List Char × Nat) :=
  match (if a.require_classes && !a.url_safe
         then pick_from_each_class g class_names pm ix
         else some ([], ix)) with
  | none => .error .emptyClassDraw
  | some (chars0, ix1) =>
    let remaining := (a.length - (chars0.length : Int)).toNat
    if a.no_repeat then
      let available := pool.filter (fun c => decide (c ∉ chars0))
      let sh := secure_shuffle g available ix1
      if sh.1.length < remaining then .error .insufficientUnique
      else
        let chars1 := chars0 ++ sh.1.take remaining
        let sh2 := secure_shuffle g chars1 sh.2
        .ok (sh2.1, sh2.2)
    else
      match fill_choices g pool remaining ix1 with
      | none => .error .emptyPoolDraw
      | some (fills, ix2) =>
        let chars1 := chars0 ++ fills
        let sh2 := secure_shuffle g chars1 ix2
        .ok (sh2.1, sh2.2)

/-- The password-accumulation loop of `generate_passwords`: `count` cores, each
assembled as `prefix + core + suffix` in request order, threading the stream. -/
def generate_loop (g : Gen) (pool : List Char) (pm : String → Option (List Char))
    (class_names : List String) (a : Args) :
    Nat → Nat → Except GenError (List (List Char) × Nat)
  | 0, ix => .ok ([], ix)
  | n + 1, ix =>
    match generate_one g pool pm class_names a ix with
    | .error e => .error e
    | .ok (core, ix1) =>
      match generate_loop g pool pm class_names a n ix1 with
      | .error e => .error e
      | .ok (rest, ix2) => .ok ((a.prefixStr ++ core ++ a.suffixStr) :: rest, ix2)

/-- Python `generate_passwords(pool, class_names, args)`: build the pool map
once, then produce `args.count` passwords. -/
def generate_passwords (g : Gen) (pool : List Char) (class_names : List String)
    (a : Args) : Except GenError (List (List Char)) :=
  match generate_loop g pool (build_pool_map pool) class_names a a.count 0 with
  | .error e => .error e
  | .ok (pwds, _) => .ok pwds

/-- Python `bits_of_entropy(pool_size, length)`: 0.0 when the pool has at most
one character or the length is non-positive, else `length * log2(pool_size)`.
The float function `math.log2` is abstracted as the parameter `log2`; the
rationals stand in for IEEE floats, keeping the branch structure exact. -/
def bits_of_entropy (log2 : Int → ℚ) (pool_size length : Int) : ℚ :=
  if pool_size ≤ 1 ∨ length ≤ 0 then 0 else (length : ℚ) * log2 pool_size

/-- Well-formed active-class lists per the spec's data model (ActiveClasses):
either the single `url_safe` sentinel, or a duplicate-free list of selected
standard class names. Every `build_pool` output satisfies this
(`build_class_names_wf` below). -/
def WFClasses (names : List String) : Prop :=
  names = ["url_safe"] ∨
    (names.Nodup ∧ ∀ n ∈ names, n ∈ (["lower", "upper", "digits", "symbols"] : List String))

instance : DecidablePred WFClasses := fun names => by
  unfold WFClasses; infer_instance

deriving instance DecidableEq for Except

/-- Replacing position `i` (holding `b`) by `a` and re-consing `b` in front
permutes consing `a` in front of the original list. -/
theorem cons_set_perm : ∀ (l : List Char) (i : Nat) (a b : Char),
    l[i]? = some b → b :: l.set i a ~ a :: l
  | [], i, a, b, h => by simp at h
  | x :: xs, 0, a, b, h => by
    simp only [List.getElem?_cons_zero, Option.some.injEq] at h
    subst h
    simpa using List.Perm.swap a x xs
  | x :: xs, i + 1, a, b, h => by
    simp only [List.getElem?_cons_succ] at h
    calc b :: (x :: xs).set (i + 1) a = b :: x :: xs.set i a := rfl
      _ ~ x :: b :: xs.set i a := List.Perm.swap x b _
      _ ~ x :: (a :: xs) := (cons_set_perm xs i a b h).cons x
      _ ~ a :: x :: xs := List.Perm.swap a x xs

/-- One Fisher-Yates swap permutes the list. -/
theorem listSwap_perm (l : List Char) (i j : Nat) : listSwap l i j ~ l := by
  rcases hi : l[i]? with _ | a
  · simp only [listSwap, hi]
    exact List.Perm.refl l
  · rcases hj : l[j]? with _ | b
    · simp only [listSwap, hi, hj]
      exact List.Perm.refl l
    · simp only [listSwap, hi, hj]
      have hi' : i < l.length := by
        rcases List.getElem?_eq_some_iff.mp hi with ⟨h, _⟩
        exact h
      have hXj : (l.set i b)[j]? = some b := by
        by_cases hij : i = j
        · subst hij
          exact List.getElem?_set_self hi'
        · rw [List.getElem?_set_ne hij]
          exact hj
      have p1 : b :: (l.set i b).set j a ~ a :: l.set i b := cons_set_perm _ j a b hXj
      have p2 : a :: l.set i b ~ b :: l := cons_set_perm l i b a hi
      exact (p1.trans p2).cons_inv

/-- The Fisher-Yates loop permutes the list. -/
theorem secure_shuffle_go_perm (g : Gen) :
    ∀ (i : Nat) (l : List Char) (ix : Nat), (secure_shuffle_go g i l ix).1 ~ l
  | 0, _, _ => List.Perm.refl _
  | i + 1, l, ix =>
    (secure_shuffle_go_perm g i _ _).trans (listSwap_perm l (i + 1) (randbelow g ix (i + 2)))

/-- Python `secure_shuffle` permutes its input. -/
theorem secure_shuffle_perm (g : Gen) (l : List Char) (ix : Nat) :
    (secure_shuffle g l ix).1 ~ l :=
  secure_shuffle_go_perm g (l.length - 1) l ix

/-- Membership in `sorted(set(l))` is membership in `l`. -/
theorem mem_sorted_set {a : Char} {l : List Char} : a ∈ sorted_set l ↔ a ∈ l := by
  unfold sorted_set
  rw [(List.perm_insertionSort _ _).mem_iff, List.mem_dedup]

/-- Python `sorted(set(l))` has no duplicates. -/
theorem nodup_sorted_set (l : List Char) : (sorted_set l).Nodup :=
  (List.perm_insertionSort _ _).nodup_iff.mpr (List.nodup_dedup l)

/-- Python `sorted(set(l))` is sorted by codepoint. -/
theorem sorted_sorted_set (l : List Char) :
    List.Sorted (fun a b : Char => a ≤ b) (sorted_set l) :=
  List.sorted_insertionSort _ _

/-- Python `sorted(set(l))` of a non-empty list is non-empty. -/
theorem sorted_set_ne_nil {l : List Char} (h : l ≠ []) : sorted_set l ≠ [] := by
  obtain ⟨a, ha⟩ := List.exists_mem_of_ne_nil l h
  exact List.ne_nil_of_mem (mem_sorted_set.mpr ha)

/-- The fixed base character set of each standard class as `build_pool_map`
uses it (symbols: always `string.punctuation`). -/
def class_base (name : String) : List Char :=
  if name = "lower" then ascii_lowercase
  else if name = "upper" then ascii_uppercase
  else if name = "digits" then ascii_digits
  else if name = "symbols" then punctuation
  else []

/-- Membership in a sorted pool-base intersection. -/
theorem mem_slice_filter {pool base : List Char} {c : Char} :
    c ∈ sorted_set (pool.filter (fun d => decide (d ∈ base))) ↔ c ∈ pool ∧ c ∈ base := by
  rw [mem_sorted_set, List.mem_filter]
  simp

/-- Membership in a standard class's slice of the pool is membership in both
the pool and the class's fixed base set. -/
theorem mem_slice_iff {pool : List Char} {n : String} {c : Char}
    (h : n ∈ (["lower", "upper", "digits", "symbols"] : List String)) :
    c ∈ (build_pool_map pool n).getD [] ↔ c ∈ pool ∧ c ∈ class_base n := by
  fin_cases h <;> simp only [build_pool_map, class_base] <;> simp [mem_slice_filter]

/-- Every character of a class slice lies in the pool. -/
theorem slice_subset_pool {pool : List Char} {n : String} {c : Char}
    (h : c ∈ (build_pool_map pool n).getD []) : c ∈ pool := by
  unfold build_pool_map at h
  split_ifs at h <;>
    simp only [Option.getD_some, Option.getD_none] at h
  · exact (mem_slice_filter.mp h).1
  · exact (mem_slice_filter.mp h).1
  · exact (mem_slice_filter.mp h).1
  · exact (mem_slice_filter.mp h).1
  · cases h

/-- The four fixed base sets are pairwise disjoint. -/
theorem class_base_disjoint :
    ∀ n₁ ∈ (["lower", "upper", "digits", "symbols"] : List String),
    ∀ n₂ ∈ (["lower", "upper", "digits", "symbols"] : List String),
      n₁ ≠ n₂ → ∀ c ∈ class_base n₁, c ∉ class_base n₂ := by decide

/-- Slices of distinct standard classes are disjoint subsets of the pool. -/
theorem slice_disjoint {pool : List Char} {n₁ n₂ : String}
    (h₁ : n₁ ∈ (["lower", "upper", "digits", "symbols"] : List String))
    (h₂ : n₂ ∈ (["lower", "upper", "digits", "symbols"] : List String))
    (hne : n₁ ≠ n₂) {c : Char}
    (hc₁ : c ∈ (build_pool_map pool n₁).getD [])
    (hc₂ : c ∈ (build_pool_map pool n₂).getD []) : False :=
  class_base_disjoint n₁ h₁ n₂ h₂ hne c ((mem_slice_iff h₁).mp hc₁).2
    ((mem_slice_iff h₂).mp hc₂).2

/-- For a well-formed class list, containing `"url_safe"` is the same as being
the sentinel list. -/
theorem wf_mem_url_safe {names : List String} (h : WFClasses names) :
    "url_safe" ∈ names ↔ names = ["url_safe"] := by
  rcases h with rfl | ⟨_, hsub⟩
  · simp
  · constructor
    · intro hmem
      exact absurd (hsub _ hmem) (by decide)
    · rintro rfl
      simp

/-- A successful `secrets.choice` returns an element of the sequence and
advances the stream by one. -/
theorem choice_eq_some {g : Gen} {s : List Char} {ix : Nat} {c : Char} {ix' : Nat}
    (h : choice g s ix = some (c, ix')) : c ∈ s ∧ ix' = ix + 1 := by
  unfold choice at h
  rcases hg : s[randbelow g ix s.length]? with _ | d
  · rw [hg] at h
    cases h
  · rw [hg] at h
    obtain ⟨rfl, rfl⟩ : d = c ∧ ix + 1 = ix' := by
      injection h with h'
      injection h' with h1 h2
      exact ⟨h1, h2⟩
    exact ⟨List.getElem?_mem hg, rfl⟩

/-- On a non-empty sequence `secrets.choice` always succeeds. -/
theorem choice_some_of_ne_nil {g : Gen} {s : List Char} (ix : Nat) (h : s ≠ []) :
    ∃ c, choice g s ix = some (c, ix + 1) ∧ c ∈ s := by
  have hlen : 0 < s.length := List.length_pos.mpr h
  have hlt : randbelow g ix s.length < s.length := Nat.mod_lt _ hlen
  refine ⟨s[randbelow g ix s.length], ?_, List.getElem_mem hlt⟩
  unfold choice
  rw [List.getElem?_eq_getElem hlt]

/-- Each left element of a `Forall₂` pair has a related right element. -/
theorem forall₂_exists_right {R : String → Char → Prop} :
    ∀ {as : List String} {bs : List Char}, List.Forall₂ R as bs →
      ∀ a ∈ as, ∃ b ∈ bs, R a b := by
  intro as bs h
  induction h with
  | nil =>
    intro a ha
    cases ha
  | cons hR hrest IH =>
    intro a ha
    rcases List.mem_cons.mp ha with rfl | ha'
    · exact ⟨_, List.mem_cons_self _ _, hR⟩
    · obtain ⟨b, hb, hRb⟩ := IH a ha'
      exact ⟨b, List.mem_cons_of_mem _ hb, hRb⟩

/-- Each right element of a `Forall₂` pair has a related left element. -/
theorem forall₂_exists_left {R : String → Char → Prop} :
    ∀ {as : List String} {bs : List Char}, List.Forall₂ R as bs →
      ∀ b ∈ bs, ∃ a ∈ as, R a b := by
  intro as bs h
  induction h with
  | nil =>
    intro b hb
    cases hb
  | cons hR hrest IH =>
    intro b hb
    rcases List.mem_cons.mp hb with rfl | hb'
    · exact ⟨_, List.mem_cons_self _ _, hR⟩
    · obtain ⟨a, ha, hRa⟩ := IH b hb'
      exact ⟨a, List.mem_cons_of_mem _ ha, hRa⟩

/-- Characters drawn one per distinct standard class are pairwise distinct,
because distinct classes have disjoint slices. -/
theorem forall₂_slice_nodup {pool : List Char} :
    ∀ {ns : List String} {ps : List Char},
      List.Forall₂ (fun n c => c ∈ (build_pool_map pool n).getD []) ns ps →
      ns.Nodup → (∀ n ∈ ns, n ∈ (["lower", "upper", "digits", "symbols"] : List String)) →
      ps.Nodup := by
  intro ns ps h
  induction h with
  | nil =>
    intro _ _
    simp
  | @cons a b l₁ l₂ hR hrest IH =>
    intro hnd hsub
    obtain ⟨hna, hnd'⟩ := List.nodup_cons.mp hnd
    refine List.nodup_cons.mpr ⟨?_, IH hnd' (fun n hn => hsub n (List.mem_cons_of_mem _ hn))⟩
    intro hmem
    obtain ⟨n', hn', hR'⟩ := forall₂_exists_left hrest _ hmem
    have hne : a ≠ n' := fun he => hna (he ▸ hn')
    exact slice_disjoint (hsub a (List.mem_cons_self _ _))
      (hsub n' (List.mem_cons_of_mem _ hn')) hne hR hR'

/-- A successful per-class seeding pairs each non-url-safe class name, in
order, with a drawn member of that class's slice. -/
theorem pick_ok_forall₂ {g : Gen} {pm : String → Option (List Char)} :
    ∀ {names : List String} {ix : Nat} {picks : List Char} {ix' : Nat},
      pick_from_each_class g names pm ix = some (picks, ix') →
      List.Forall₂ (fun n c => c ∈ (pm n).getD [])
        (names.filter (fun n => decide (n ≠ "url_safe"))) picks := by
  intro names
  induction names with
  | nil =>
    intro ix picks ix' h
    simp only [pick_from_each_class, Option.some.injEq, Prod.mk.injEq] at h
    obtain ⟨rfl, _⟩ := h
    simp
  | cons n rest IH =>
    intro ix picks ix' h
    by_cases hn : n = "url_safe"
    · rw [List.filter_cons_of_neg (by simp [hn])]
      rw [pick_from_each_class, if_pos hn] at h
      exact IH h
    · rw [List.filter_cons_of_pos (by simp [hn])]
      rw [pick_from_each_class, if_neg hn] at h
      cases hpm : pm n with
      | none =>
        simp only [hpm] at h
        cases h
      | some s =>
        cases hch : choice g s ix with
        | none =>
          simp only [hpm, hch] at h
          cases h
        | some p =>
          obtain ⟨c, ix1⟩ := p
          cases hrec : pick_from_each_class g rest pm ix1 with
          | none =>
            simp only [hpm, hch, hrec] at h
            cases h
          | some q =>
            obtain ⟨cs, ix2⟩ := q
            simp only [hpm, hch, hrec, Option.some.injEq, Prod.mk.injEq] at h
            obtain ⟨rfl, _⟩ := h
            refine List.Forall₂.cons ?_ (IH hrec)
            rw [hpm, Option.getD_some]
            exact (choice_eq_some hch).1

/-- When every required class has a non-empty slice, per-class seeding
succeeds. -/
theorem pick_some {g : Gen} {pm : String → Option (List Char)} :
    ∀ {names : List String},
      (∀ n ∈ names, n ≠ "url_safe" → ∃ s, pm n = some s ∧ s ≠ []) →
      ∀ ix, ∃ picks ix', pick_from_each_class g names pm ix = some (picks, ix') := by
  intro names
  induction names with
  | nil =>
    intro _ ix
    exact ⟨[], ix, rfl⟩
  | cons n rest IH =>
    intro hcls ix
    by_cases hn : n = "url_safe"
    · obtain ⟨picks, ix', hrec⟩ :=
        IH (fun m hm => hcls m (List.mem_cons_of_mem _ hm)) ix
      exact ⟨picks, ix', by rw [pick_from_each_class, if_pos hn]; exact hrec⟩
    · obtain ⟨s, hpm, hne⟩ := hcls n (List.mem_cons_self _ _) hn
      obtain ⟨c, hch, _⟩ := choice_some_of_ne_nil (g := g) ix hne
      obtain ⟨picks, ix', hrec⟩ :=
        IH (fun m hm => hcls m (List.mem_cons_of_mem _ hm)) (ix + 1)
      refine ⟨c :: picks, ix', ?_⟩
      rw [pick_from_each_class, if_neg hn]
      simp only [hpm, hch, hrec]

/-- A successful with-repetition fill returns exactly the requested number of
pool characters. -/
theorem fill_choices_ok {g : Gen} {pool : List Char} :
    ∀ {n : Nat} {ix : Nat} {fills : List Char} {ix' : Nat},
      fill_choices g pool n ix = some (fills, ix') →
      fills.length = n ∧ ∀ c ∈ fills, c ∈ pool := by
  intro n
  induction n with
  | zero =>
    intro ix fills ix' h
    simp only [fill_choices, Option.some.injEq, Prod.mk.injEq] at h
    obtain ⟨rfl, _⟩ := h
    simp
  | succ k IH =>
    intro ix fills ix' h
    rw [fill_choices] at h
    cases hch : choice g pool ix with
    | none =>
      simp only [hch] at h
      cases h
    | some p =>
      obtain ⟨c, ix1⟩ := p
      cases hrec : fill_choices g pool k ix1 with
      | none =>
        simp only [hch, hrec] at h
        cases h
      | some q =>
        obtain ⟨cs, ix2⟩ := q
        simp only [hch, hrec, Option.some.injEq, Prod.mk.injEq] at h
        obtain ⟨rfl, _⟩ := h
        obtain ⟨hlen, hmem⟩ := IH hrec
        refine ⟨by simp [hlen], ?_⟩
        intro d hd
        rcases List.mem_cons.mp hd with rfl | hd'
        · exact (choice_eq_some hch).1
        · exact hmem d hd'

/-- On a non-empty pool the with-repetition fill always succeeds. -/
theorem fill_choices_some {g : Gen} {pool : List Char} (hne : pool ≠ []) :
    ∀ (n ix : Nat), ∃ fills ix', fill_choices g pool n ix = some (fills, ix') := by
  intro n
  induction n with
  | zero =>
    intro ix
    exact ⟨[], ix, rfl⟩
  | succ k IH =>
    intro ix
    obtain ⟨c, hch, _⟩ := choice_some_of_ne_nil (g := g) ix hne
    obtain ⟨fills, ix', hrec⟩ := IH (ix + 1)
    refine ⟨c :: fills, ix', ?_⟩
    rw [fill_choices]
    simp only [hch, hrec]

/-- Facts available after `ensure_requirements` passes: the length is at least
1, under no-repeat it is at most the pool size, and when classes are required
with `"url_safe"` absent every named slice is non-empty and the length covers
the class count. -/
theorem ensure_ok {length : Int} {names : List String} {req norep : Bool} {pool : List Char}
    (h : ensure_requirements length names req norep pool = .ok ()) :
    1 ≤ length ∧ (norep = true → length ≤ (pool.length : Int)) ∧
      (req = true → "url_safe" ∉ names →
        (∀ n ∈ names, ((build_pool_map pool n).getD []) ≠ []) ∧
          (names.length : Int) ≤ length) := by
  simp only [ensure_requirements] at h
  split_ifs at h with h1 h2 h3 h4 h5
  · refine ⟨by omega, ?_, ?_⟩
    · intro hnr
      simp only [hnr, Bool.true_and, decide_eq_true_eq] at h2
      omega
    · intro _ _
      refine ⟨?_, by omega⟩
      intro n hn
      have hfil : (names.filter (fun m => ((build_pool_map pool m).getD []).isEmpty)) = [] := by
        simpa using h4
      have := List.filter_eq_nil_iff.mp hfil n hn
      simpa using this
  · refine ⟨by omega, ?_, ?_⟩
    · intro hnr
      simp only [hnr, Bool.true_and, decide_eq_true_eq] at h2
      omega
    · intro hreq hnus
      exact absurd (by simp [hreq, hnus]) h3

/-- Removing a duplicate-free subset from a duplicate-free pool by filtering
leaves exactly pool size minus subset size characters. -/
theorem filter_not_mem_length {pool chars0 : List Char} (hp : pool.Nodup)
    (hc : chars0.Nodup) (hsub : ∀ c ∈ chars0, c ∈ pool) :
    (pool.filter (fun c => decide (c ∉ chars0))).length = pool.length - chars0.length := by
  have hperm := List.filter_append_perm (fun c => decide (c ∈ chars0)) pool
  have hpred : (fun c => !decide (c ∈ chars0)) = (fun c : Char => decide (c ∉ chars0)) := by
    funext c
    simp
  rw [hpred] at hperm
  have hA : (pool.filter (fun c => decide (c ∈ chars0))).length = chars0.length := by
    apply List.Perm.length_eq
    apply List.Subperm.antisymm
    · refine List.Nodup.subperm (hp.filter _) ?_
      intro c hc'
      have := List.of_mem_filter hc'
      simpa using this
    · refine List.Nodup.subperm hc ?_
      intro c hcc
      exact List.mem_filter.mpr ⟨hsub c hcc, by simpa using hcc⟩
  have hlen := hperm.length_eq
  rw [List.length_append, hA] at hlen
  omega

/-- Each of the four standard class names has a slice in the pool map. -/
theorem slice_is_some (pool : List Char) {n : String}
    (h : n ∈ (["lower", "upper", "digits", "symbols"] : List String)) :
    ∃ s, build_pool_map pool n = some s := by
  fin_cases h
  · refine ⟨sorted_set (pool.filter (fun c => decide (c ∈ ascii_lowercase))), ?_⟩
    simp [build_pool_map]
  · refine ⟨sorted_set (pool.filter (fun c => decide (c ∈ ascii_uppercase))), ?_⟩
    simp [build_pool_map]
  · refine ⟨sorted_set (pool.filter (fun c => decide (c ∈ ascii_digits))), ?_⟩
    simp [build_pool_map]
  · refine ⟨sorted_set (pool.filter (fun c => decide (c ∈ punctuation))), ?_⟩
    simp [build_pool_map]

/-- Master case analysis of one generation iteration: with a duplicate-free
pool, a well-formed class list and a passed validation, the iteration either
fails drawing from an empty pool in the with-repetition fill, or returns a
core of exactly the requested length made of pool characters, duplicate-free
under no-repeat, and containing a character of every required class slice. -/
theorem generate_one_cases {g : Gen} {pool : List Char} {names : List String} {a : Args}
    (hp : pool.Nodup) (hwf : WFClasses names)
    (hv : ensure_requirements a.length names a.require_classes a.no_repeat pool = .ok ())
    (ix : Nat) :
    (a.no_repeat = false ∧
      generate_one g pool (build_pool_map pool) names a ix = .error .emptyPoolDraw) ∨
    ∃ core ix', generate_one g pool (build_pool_map pool) names a ix = .ok (core, ix') ∧
      (core.length : Int) = a.length ∧
      (∀ c ∈ core, c ∈ pool) ∧
      (a.no_repeat = true → core.Nodup) ∧
      (∀ n ∈ names, n ≠ "url_safe" → a.require_classes = true → a.url_safe = false →
        ∃ c ∈ core, c ∈ (build_pool_map pool n).getD []) := by
  obtain ⟨hlen1, hlen2, hcls⟩ := ensure_ok hv
  have hseedstage : ∃ chars0 ix1,
      (if a.require_classes && !a.url_safe
        then pick_from_each_class g names (build_pool_map pool) ix
        else some ([], ix)) = some (chars0, ix1) ∧
      chars0.Nodup ∧ (∀ c ∈ chars0, c ∈ pool) ∧
      (chars0.length : Int) ≤ a.length ∧
      (∀ n ∈ names, n ≠ "url_safe" → a.require_classes = true → a.url_safe = false →
        ∃ c ∈ chars0, c ∈ (build_pool_map pool n).getD []) := by
    by_cases hb : (a.require_classes && !a.url_safe) = true
    · rw [if_pos hb]
      obtain ⟨hreq, hurl⟩ : a.require_classes = true ∧ a.url_safe = false := by
        revert hb
        cases a.require_classes <;> cases a.url_safe <;> simp
      rcases hwf with heq | ⟨hnd, hsub⟩
      · subst heq
        refine ⟨[], ix, ?_, by simp, by simp, by simp; omega, ?_⟩
        · simp [pick_from_each_class]
        · intro n hn hne _ _
          rw [List.mem_singleton] at hn
          exact absurd hn hne
      · have hnus : "url_safe" ∉ names := fun hm => by
          have := hsub _ hm
          simp at this
        obtain ⟨hslices, hneed⟩ := hcls hreq hnus
        have hexists : ∀ n ∈ names, n ≠ "url_safe" →
            ∃ s, build_pool_map pool n = some s ∧ s ≠ [] := by
          intro n hn _
          obtain ⟨s, hs⟩ := slice_is_some pool (hsub n hn)
          refine ⟨s, hs, ?_⟩
          have hne := hslices n hn
          rw [hs, Option.getD_some] at hne
          exact hne
        obtain ⟨picks, ix1, hpick⟩ := pick_some hexists ix
        have hfeq : names.filter (fun n => decide (n ≠ "url_safe")) = names :=
          List.filter_eq_self.mpr (fun n hn => by
            simp only [decide_eq_true_eq]
            intro he
            exact hnus (he ▸ hn))
        have hF := pick_ok_forall₂ hpick
        rw [hfeq] at hF
        refine ⟨picks, ix1, hpick, ?_, ?_, ?_, ?_⟩
        · exact forall₂_slice_nodup hF hnd hsub
        · intro c hcp
          obtain ⟨n, _, hrel⟩ := forall₂_exists_left hF c hcp
          exact slice_subset_pool hrel
        · have hle := hF.length_eq
          omega
        · intro n hn _ _ _
          exact forall₂_exists_right hF n hn
    · rw [if_neg hb]
      refine ⟨[], ix, rfl, by simp, by simp, by simp; omega, ?_⟩
      intro n hn hne hreq hurl
      exact absurd (by simp [hreq, hurl]) hb
  obtain ⟨chars0, ix1, hseed, hc0nd, hc0mem, hc0len, hc0cov⟩ := hseedstage
  have hremcast : (((a.length - (chars0.length : Int)).toNat : Int)) =
      a.length - chars0.length := Int.toNat_of_nonneg (by omega)
  simp only [generate_one, hseed]
  by_cases hnr : a.no_repeat = true
  · rw [if_pos hnr]
    have hshp : (secure_shuffle g (pool.filter (fun c => decide (c ∉ chars0))) ix1).1 ~
        pool.filter (fun c => decide (c ∉ chars0)) := secure_shuffle_perm g _ ix1
    have havlen : (pool.filter (fun c => decide (c ∉ chars0))).length =
        pool.length - chars0.length := filter_not_mem_length hp hc0nd hc0mem
    have hpoollen : a.length ≤ (pool.length : Int) := hlen2 hnr
    have hc0lenle : chars0.length ≤ pool.length := by omega
    have hshlen : (secure_shuffle g (pool.filter (fun c => decide (c ∉ chars0))) ix1).1.length =
        pool.length - chars0.length := by
      rw [hshp.length_eq, havlen]
    have hnotlt : ¬((secure_shuffle g (pool.filter (fun c => decide (c ∉ chars0))) ix1).1.length <
        (a.length - (chars0.length : Int)).toNat) := by
      rw [hshlen]
      omega
    rw [if_neg hnotlt]
    right
    have hperm2 : (secure_shuffle g
        (chars0 ++ (secure_shuffle g (pool.filter (fun c => decide (c ∉ chars0))) ix1).1.take
          ((a.length - (chars0.length : Int)).toNat))
        (secure_shuffle g (pool.filter (fun c => decide (c ∉ chars0))) ix1).2).1 ~
        chars0 ++ (secure_shuffle g (pool.filter (fun c => decide (c ∉ chars0))) ix1).1.take
          ((a.length - (chars0.length : Int)).toNat) := secure_shuffle_perm g _ _
    have htakelen : ((secure_shuffle g (pool.filter (fun c => decide (c ∉ chars0))) ix1).1.take
        ((a.length - (chars0.length : Int)).toNat)).length =
        (a.length - (chars0.length : Int)).toNat := by
      rw [List.length_take]
      omega
    refine ⟨_, _, rfl, ?_, ?_, ?_, ?_⟩
    · have hl2 := hperm2.length_eq
      rw [List.length_append, htakelen] at hl2
      omega
    · intro c hc
      rw [hperm2.mem_iff, List.mem_append] at hc
      rcases hc with hc | hc
      · exact hc0mem c hc
      · have hc' := hshp.mem_iff.mp (List.mem_of_mem_take hc)
        exact (List.mem_filter.mp hc').1
    · intro _
      rw [hperm2.nodup_iff]
      have hsh1nd : (secure_shuffle g (pool.filter (fun c => decide (c ∉ chars0))) ix1).1.Nodup :=
        hshp.nodup_iff.mpr (hp.filter _)
      refine List.Nodup.append hc0nd (List.Nodup.sublist (List.take_sublist _ _) hsh1nd) ?_
      intro c hcc hct
      have hc' := hshp.mem_iff.mp (List.mem_of_mem_take hct)
      have := (List.mem_filter.mp hc').2
      simp only [decide_eq_true_eq] at this
      exact this hcc
    · intro n hn hne hreq hurl
      obtain ⟨c, hc, hrel⟩ := hc0cov n hn hne hreq hurl
      exact ⟨c, hperm2.mem_iff.mpr (List.mem_append_left _ hc), hrel⟩
  · rw [if_neg hnr]
    cases hfc : fill_choices g pool ((a.length - (chars0.length : Int)).toNat) ix1 with
    | none =>
      left
      refine ⟨by revert hnr; cases a.no_repeat <;> simp, ?_⟩
      simp only [hfc]
    | some p =>
      obtain ⟨fills, ix2⟩ := p
      right
      obtain ⟨hfl, hfm⟩ := fill_choices_ok hfc
      simp only [hfc]
      have hperm2 : (secure_shuffle g (chars0 ++ fills) ix2).1 ~ chars0 ++ fills :=
        secure_shuffle_perm g _ _
      refine ⟨_, _, rfl, ?_, ?_, ?_, ?_⟩
      · have hl2 := hperm2.length_eq
        rw [List.length_append, hfl] at hl2
        omega
      · intro c hc
        rw [hperm2.mem_iff, List.mem_append] at hc
        rcases hc with hc | hc
        · exact hc0mem c hc
        · exact hfm c hc
      · intro h
        exact absurd h hnr
      · intro n hn hne hreq hurl
        obtain ⟨c, hc, hrel⟩ := hc0cov n hn hne hreq hurl
        exact ⟨c, hperm2.mem_iff.mpr (List.mem_append_left _ hc), hrel⟩

/-- Loop-level master lemma: under the same hypotheses the password loop
either fails with an empty-pool draw or returns exactly `count` passwords,
each a verbatim `prefix ++ core ++ suffix` with the core properties of one
generation iteration. -/
theorem generate_loop_cases {g : Gen} {pool : List Char} {names : List String} {a : Args}
    (hp : pool.Nodup) (hwf : WFClasses names)
    (hv : ensure_requirements a.length names a.require_classes a.no_repeat pool = .ok ()) :
    ∀ (count ix : Nat),
      (generate_loop g pool (build_pool_map pool) names a count ix = .error .emptyPoolDraw) ∨
      ∃ pwds ix', generate_loop g pool (build_pool_map pool) names a count ix = .ok (pwds, ix') ∧
        pwds.length = count ∧
        ∀ pwd ∈ pwds, ∃ core, pwd = a.prefixStr ++ core ++ a.suffixStr ∧
          (core.length : Int) = a.length ∧
          (∀ c ∈ core, c ∈ pool) ∧
          (a.no_repeat = true → core.Nodup) ∧
          (∀ n ∈ names, n ≠ "url_safe" → a.require_classes = true → a.url_safe = false →
            ∃ c ∈ core, c ∈ (build_pool_map pool n).getD []) := by
  intro count
  induction count with
  | zero =>
    intro ix
    right
    exact ⟨[], ix, rfl, rfl, by simp⟩
  | succ k IH =>
    intro ix
    rcases generate_one_cases (g := g) hp hwf hv ix with
      ⟨_, herr⟩ | ⟨core, ix1, hok, hlen, hmem, hnd, hcov⟩
    · left
      simp only [generate_loop, herr]
    · rcases IH ix1 with herr2 | ⟨rest, ix2, hok2, hlen2, hall⟩
      · left
        simp only [generate_loop, hok, herr2]
      · right
        refine ⟨(a.prefixStr ++ core ++ a.suffixStr) :: rest, ix2, ?_, by simp [hlen2], ?_⟩
        · simp only [generate_loop, hok, hok2]
        · intro pwd hpwd
          rcases List.mem_cons.mp hpwd with heq | h'
          · exact heq ▸ ⟨core, rfl, hlen, hmem, hnd, hcov⟩
          · exact hall pwd h'

/-- Top-level master lemma for `generate_passwords`. -/
theorem generate_passwords_cases {g : Gen} {pool : List Char} {names : List String} {a : Args}
    (hp : pool.Nodup) (hwf : WFClasses names)
    (hv : ensure_requirements a.length names a.require_classes a.no_repeat pool = .ok ()) :
    generate_passwords g pool names a = .error .emptyPoolDraw ∨
    ∃ pwds, generate_passwords g pool names a = .ok pwds ∧ pwds.length = a.count ∧
      ∀ pwd ∈ pwds, ∃ core, pwd = a.prefixStr ++ core ++ a.suffixStr ∧
        (core.length : Int) = a.length ∧
        (∀ c ∈ core, c ∈ pool) ∧
        (a.no_repeat = true → core.Nodup) ∧
        (∀ n ∈ names, n ≠ "url_safe" → a.require_classes = true → a.url_safe = false →
          ∃ c ∈ core, c ∈ (build_pool_map pool n).getD []) := by
  rcases generate_loop_cases (g := g) hp hwf hv a.count 0 with herr | ⟨pwds, ix', hok, hlen, hall⟩
  · left
    simp only [generate_passwords, herr]
  · right
    refine ⟨pwds, ?_, hlen, hall⟩
    simp only [generate_passwords, hok]

/-- At least one class is always selected: the explicitly flagged one, or all
four by default. -/
theorem selected_class_or (s : Selection) :
    selected_class s s.lower = true ∨ selected_class s s.upper = true ∨
    selected_class s s.digits = true ∨ selected_class s s.symbols = true := by
  unfold selected_class includes_specified
  by_cases hi : (s.lower || s.upper || s.digits || s.symbols) = true
  · rcases (by simpa using hi :
        ((s.lower = true ∨ s.upper = true) ∨ s.digits = true) ∨ s.symbols = true)
      with ((h | h) | h) | h
    · left
      simp [hi, h]
    · right; left
      simp [hi, h]
    · right; right; left
      simp [hi, h]
    · right; right; right
      simp [hi, h]
  · left
    simp [hi]

/-- The Python `pool_parts` list is never empty: the url-safe branch supplies
one part, and otherwise at least one class is selected. -/
theorem build_pool_parts_ne_nil (s : Selection) : build_pool_parts s ≠ [] := by
  unfold build_pool_parts
  by_cases hu : s.url_safe
  · simp [hu]
  · rw [if_neg hu]
    rcases selected_class_or s with h | h | h | h <;>
      simp [h, List.append_eq_nil]

/-- The active-class list is never empty. -/
theorem build_class_names_ne_nil (s : Selection) : build_class_names s ≠ [] := by
  unfold build_class_names
  by_cases hu : s.url_safe
  · simp [hu]
  · rw [if_neg hu]
    rcases selected_class_or s with h | h | h | h <;>
      simp [h, List.append_eq_nil]

/-- Every class list produced by `build_pool` is well formed: the url-safe
sentinel alone, or a duplicate-free selection of the four standard names. -/
theorem build_class_names_wf (s : Selection) : WFClasses (build_class_names s) := by
  unfold build_class_names
  by_cases hu : s.url_safe
  · rw [if_pos hu]
    left
    rfl
  · rw [if_neg hu]
    right
    cases hl : selected_class s s.lower <;> cases hup : selected_class s s.upper <;>
      cases hd : selected_class s s.digits <;> cases hsy : selected_class s s.symbols <;>
      simp_all

/-- Structure of a successful `build_pool`: the pool is `sorted(set(...))` of a
non-empty whitespace-free list, and the names are the built class names. -/
theorem build_pool_ok {s : Selection} {pool : List Char} {names : List String}
    (h : build_pool s = .ok (pool, names)) :
    (∃ l, pool = sorted_set l ∧ l ≠ [] ∧ ∀ c ∈ l, c ∉ whitespace_chars) ∧
      names = build_class_names s := by
  simp only [build_pool] at h
  split_ifs at h with h1 h2 h3 h4
  all_goals
    simp only [Except.ok.injEq, Prod.mk.injEq] at h
  all_goals
    obtain ⟨hpool, hnames⟩ := h
  all_goals
    refine ⟨⟨_, hpool.symm, ?_, ?_⟩, hnames.symm⟩
  · intro hnil
    rw [hnil] at h3
    exact h3 rfl
  · intro c hc
    have hws := (List.mem_filter.mp hc).2
    simpa using hws
  · intro hnil
    rw [hnil] at h4
    exact h4 rfl
  · intro c hc
    have hws := (List.mem_filter.mp hc).2
    simpa using hws

/-- The `EmptySelection` exit of `build_pool` is unreachable: `pool_parts` is
never the empty list. -/
theorem build_pool_ne_empty_selection (s : Selection) :
    build_pool s ≠ .error .emptySelection := by
  simp only [build_pool]
  rw [if_neg (by simpa using build_pool_parts_ne_nil s)]
  split_ifs <;> simp

/-- With the url-safe flag and no exclusions, `build_pool` returns the sorted
unreserved set with the sentinel class list, whatever the other fields are. -/
theorem build_pool_url_safe {s : Selection} (hu : s.url_safe = true) (hx : s.exclude = []) :
    build_pool s = .ok (sorted_set URL_SAFE_UNRESERVED, ["url_safe"]) := by
  simp only [build_pool, build_pool_parts, build_class_names, hu, Bool.not_true,
    Bool.and_false, hx, if_true, if_false]
  decide

/-- With no class flag set and url-safe off, all four classes default to
active and `build_pool` can only succeed with the full class list or fail
with `EmptyPool`. -/
theorem build_pool_default {s : Selection} (hu : s.url_safe = false)
    (hl : s.lower = false) (hup : s.upper = false) (hd : s.digits = false)
    (hsy : s.symbols = false) :
    build_pool s = .error .emptyPool ∨
      ∃ pool, build_pool s = .ok (pool, ["lower", "upper", "digits", "symbols"]) := by
  have hi : includes_specified s = false := by
    simp [includes_specified, hl, hup, hd, hsy]
  have hnames : build_class_names s = ["lower", "upper", "digits", "symbols"] := by
    simp [build_class_names, hu, selected_class, hi]
  simp only [build_pool, hnames]
  rw [if_neg (by simpa using build_pool_parts_ne_nil s)]
  split_ifs with h2 h3 h4
  · exact Or.inl rfl
  · exact Or.inr ⟨_, rfl⟩
  · exact Or.inl rfl
  · exact Or.inr ⟨_, rfl⟩

/-- When the url-safe flag is on, the `require_classes` flag has no effect on
generation: the per-class seeding step is skipped either way. -/
theorem generate_url_safe_no_seeding (g : Gen) (pool : List Char) (names : List String)
    (a : Args) (hurl : a.url_safe = true) :
    generate_passwords g pool names a =
      generate_passwords g pool names
        ⟨a.count, a.length, false, a.url_safe, a.no_repeat, a.prefixStr, a.suffixStr⟩ := by
  have hone : ∀ ix, generate_one g pool (build_pool_map pool) names a ix =
      generate_one g pool (build_pool_map pool) names
        ⟨a.count, a.length, false, a.url_safe, a.no_repeat, a.prefixStr, a.suffixStr⟩ ix := by
    intro ix
    simp only [generate_one, hurl, Bool.not_true, Bool.and_false]
  have hloop : ∀ count ix,
      generate_loop g pool (build_pool_map pool) names a count ix =
        generate_loop g pool (build_pool_map pool) names
          ⟨a.count, a.length, false, a.url_safe, a.no_repeat, a.prefixStr, a.suffixStr⟩ count ix := by
    intro count
    induction count with
    | zero =>
      intro ix
      rfl
    | succ k IH =>
      intro ix
      simp only [generate_loop, ← hone ix]
      cases hres : generate_one g pool (build_pool_map pool) names a ix with
      | error e => rfl
      | ok p =>
        obtain ⟨core, ix1⟩ := p
        simp only [← IH ix1]
  simp only [generate_passwords]
  rw [← hloop a.count 0]

/-- C1: for every duplicate-free pool, well-formed active-class list (the
spec's CharacterPool and ActiveClasses data-model invariants) and generation
config with `no_repeat = true` that passed validation, every password returned
by generate has a core — the list between prefix and suffix — of exactly
`length` pairwise-distinct characters, each belonging to the pool. -/
theorem C1_no_repeat_core (g : Gen) (pool : List Char) (names : List String)
    (a : Args) (pwds : List (List Char))
    (hp : pool.Nodup) (hwf : WFClasses names)
    (hv : ensure_requirements a.length names a.require_classes a.no_repeat pool = .ok ())
    (hnr : a.no_repeat = true)
    (hok : generate_passwords g pool names a = .ok pwds) :
    ∀ pwd ∈ pwds, ∃ core, pwd = a.prefixStr ++ core ++ a.suffixStr ∧
      (core.length : Int) = a.length ∧ core.Nodup ∧ ∀ c ∈ core, c ∈ pool := by
  rcases generate_passwords_cases (g := g) hp hwf hv with herr | ⟨pwds', hok', _, hall⟩
  · rw [hok] at herr
    cases herr
  · rw [hok] at hok'
    injection hok' with he
    subst he
    intro pwd hpwd
    obtain ⟨core, hasm, hclen, hcmem, hcnd, _⟩ := hall pwd hpwd
    exact ⟨core, hasm, hclen, hcnd hnr, hcmem⟩

/-- C2: for every duplicate-free pool, well-formed active-class list and
validated config with `require_classes = true` and the url-safe flag off,
every core returned by generate contains at least one character from each
active class's pool slice (one character is drawn from each slice before
filling and shuffling). -/
theorem C2_class_coverage (g : Gen) (pool : List Char) (names : List String)
    (a : Args) (pwds : List (List Char))
    (hp : pool.Nodup) (hwf : WFClasses names)
    (hv : ensure_requirements a.length names a.require_classes a.no_repeat pool = .ok ())
    (hreq : a.require_classes = true) (hurl : a.url_safe = false)
    (hok : generate_passwords g pool names a = .ok pwds) :
    ∀ pwd ∈ pwds, ∃ core, pwd = a.prefixStr ++ core ++ a.suffixStr ∧
      ∀ n ∈ names, n ≠ "url_safe" →
        ∃ c ∈ core, c ∈ (build_pool_map pool n).getD [] := by
  rcases generate_passwords_cases (g := g) hp hwf hv with herr | ⟨pwds', hok', _, hall⟩
  · rw [hok] at herr
    cases herr
  · rw [hok] at hok'
    injection hok' with he
    subst he
    intro pwd hpwd
    obtain ⟨core, hasm, _, _, _, hcov⟩ := hall pwd hpwd
    exact ⟨core, hasm, fun n hn hne => hcov n hn hne hreq hurl⟩

/-- C3: for every well-formed active-class list, the validator agrees exactly
with the specification's description: `InvalidLength` iff length < 1, else
`PoolTooSmall` iff no-repeat and length exceeds the pool size, else — when
classes are required and the active classes are not the url-safe sentinel —
`UnsatisfiableClass` listing exactly the classes with an empty pool slice,
else `LengthBelowClassCount` iff length is below the class count, else Ok. -/
theorem C3_validator_exact (length : Int) (class_names : List String)
    (require_classes no_repeat : Bool) (pool : List Char)
    (hwf : WFClasses class_names) :
    ensure_requirements length class_names require_classes no_repeat pool =
      validate_spec length class_names require_classes no_repeat pool := by
  have hmem := wf_mem_url_safe hwf
  simp only [ensure_requirements, validate_spec]
  by_cases h1 : length < 1
  · rw [if_pos h1, if_pos h1]
  rw [if_neg h1, if_neg h1]
  by_cases h2 : no_repeat = true ∧ (pool.length : Int) < length
  · rw [if_pos (by rcases h2 with ⟨hb, hc⟩; simp [hb, hc]), if_pos h2]
  · have hb2 : ¬(no_repeat && decide ((pool.length : Int) < length)) = true := by
      intro hb
      apply h2
      revert hb
      cases no_repeat <;> simp
    rw [if_neg hb2, if_neg h2]
    by_cases h3 : require_classes = true ∧ class_names ≠ ["url_safe"]
    · have hb3 : (require_classes && !decide ("url_safe" ∈ class_names)) = true := by
        rcases h3 with ⟨hr, hn⟩
        have hnus : "url_safe" ∉ class_names := fun hm => hn (hmem.mp hm)
        simp [hr, hnus]
      rw [if_pos hb3, if_pos h3]
      by_cases h4 : (class_names.filter
          (fun n => ((build_pool_map pool n).getD []).isEmpty)) = []
      · rw [if_neg (show ¬((class_names.filter
            (fun n => ((build_pool_map pool n).getD []).isEmpty)).isEmpty = false) from
              by simp [h4])]
        rw [if_neg (show ¬(class_names.filter
            (fun n => ((build_pool_map pool n).getD []).isEmpty) ≠ []) from by simp [h4])]
      · rw [if_pos (by simpa using h4), if_pos h4]
    · have hb3 : ¬(require_classes && !decide ("url_safe" ∈ class_names)) = true := by
        intro hb
        apply h3
        constructor
        · revert hb
          cases require_classes <;> simp
        · intro he
          rw [he] at hb
          simp at hb
      rw [if_neg hb3, if_neg h3]

/-- C4 counterexample: with the url-safe selection the returned pool does not
have 64 characters: the unreserved set `A-Z a-z 0-9 - . _ ~` has 66. -/
theorem C4_counterexample :
    build_pool ⟨false, false, false, false, none, [], false, true⟩ =
      .ok (sorted_set URL_SAFE_UNRESERVED, ["url_safe"]) ∧
    (sorted_set URL_SAFE_UNRESERVED).length ≠ 64 :=
  ⟨by decide, by decide⟩

/-- C4 (amended): for every selection with url-safe requested and an empty
exclusion set, `build_pool` succeeds with the pool equal (as a set) to the
66-character unreserved set `A-Z a-z 0-9 - . _ ~`, the active classes are the
single `url_safe` sentinel, all other selection fields are ignored (the result
is the same for every such selection), and with `require_classes` set
generation performs no per-class seeding (the flag has no effect). -/
theorem C4_url_safe_pool (s : Selection) (hu : s.url_safe = true) (hx : s.exclude = []) :
    build_pool s = .ok (sorted_set URL_SAFE_UNRESERVED, ["url_safe"]) ∧
    (sorted_set URL_SAFE_UNRESERVED).length = 66 ∧
    (∀ c, c ∈ sorted_set URL_SAFE_UNRESERVED ↔ c ∈ URL_SAFE_UNRESERVED) ∧
    (∀ (g : Gen) (pool : List Char) (names : List String) (a : Args), a.url_safe = true →
      generate_passwords g pool names a =
        generate_passwords g pool names
          ⟨a.count, a.length, false, a.url_safe, a.no_repeat, a.prefixStr, a.suffixStr⟩) :=
  ⟨build_pool_url_safe hu hx, by decide, fun _ => mem_sorted_set,
    fun g pool names a hurl => generate_url_safe_no_seeding g pool names a hurl⟩

/-- C5 counterexample: on the pool `"a"` with the symbols override `"a"`, the
code's `build_pool_map` gives the symbols class the empty slice (it intersects
with standard punctuation), while the claim's override-respecting mapping
gives `"a"`. -/
theorem C5_symbols_override_counterexample :
    build_pool_map ['a'] "symbols" ≠ class_membership_spec (some ['a']) ['a'] "symbols" := by
  decide

/-- C5 (amended): `build_pool_map` maps each of the four standard classes to
the intersection of the pool with that class's base character set, where the
symbols base set is always the standard ASCII punctuation set — a
caller-supplied override is never consulted by the helper. -/
theorem C5_pool_map_fixed_base (pool : List Char) :
    build_pool_map pool = class_membership_spec none pool := rfl

/-- C6 counterexample: the all-default selection (url-safe off, no class flag
set) does not fail with `EmptySelection`. -/
theorem C6_empty_selection_counterexample :
    build_pool ⟨false, false, false, false, none, [], false, false⟩ ≠
      .error .emptySelection := by
  decide

/-- C6 (amended): `build_pool` never returns `EmptySelection` (the guard is
unreachable), and with url-safe off and no class flag set all four classes
default to active: the result is `EmptyPool` or a success whose active-class
list is `[lower, upper, digits, symbols]`. -/
theorem C6_default_classes :
    (∀ s : Selection, build_pool s ≠ .error .emptySelection) ∧
    (∀ s : Selection, s.url_safe = false → s.lower = false → s.upper = false →
      s.digits = false → s.symbols = false →
      build_pool s = .error .emptyPool ∨
        ∃ pool, build_pool s = .ok (pool, ["lower", "upper", "digits", "symbols"])) :=
  ⟨build_pool_ne_empty_selection,
    fun _ hu hl hup hd hsy => build_pool_default hu hl hup hd hsy⟩

/-- C7: every successful `build_pool` returns a sorted, duplicate-free,
whitespace-free, non-empty pool together with a non-empty active-class
list. -/
theorem C7_pool_invariants (s : Selection) (pool : List Char) (names : List String)
    (h : build_pool s = .ok (pool, names)) :
    List.Sorted (fun a b : Char => a ≤ b) pool ∧ pool.Nodup ∧
      (∀ c ∈ pool, c ∉ whitespace_chars) ∧ pool ≠ [] ∧ names ≠ [] := by
  obtain ⟨⟨l, hpl, hlne, hlws⟩, hnames⟩ := build_pool_ok h
  subst hpl
  refine ⟨sorted_sorted_set l, nodup_sorted_set l, ?_, sorted_set_ne_nil hlne, ?_⟩
  · intro c hc
    exact hlws c (mem_sorted_set.mp hc)
  · rw [hnames]
    exact build_class_names_ne_nil s

/-- C8: whenever generate succeeds on a duplicate-free pool with a well-formed
validated configuration, it returns exactly `count` passwords, each equal to
`prefix ++ core ++ suffix` with the prefix and suffix copied verbatim and a
core of exactly `length` pool characters (with `no_repeat = false` repeats are
permitted; no distinctness is asserted here). -/
theorem C8_count_and_assembly (g : Gen) (pool : List Char) (names : List String)
    (a : Args) (pwds : List (List Char))
    (hp : pool.Nodup) (hwf : WFClasses names)
    (hv : ensure_requirements a.length names a.require_classes a.no_repeat pool = .ok ())
    (hok : generate_passwords g pool names a = .ok pwds) :
    pwds.length = a.count ∧
    ∀ pwd ∈ pwds, ∃ core, pwd = a.prefixStr ++ core ++ a.suffixStr ∧
      (core.length : Int) = a.length ∧ ∀ c ∈ core, c ∈ pool := by
  rcases generate_passwords_cases (g := g) hp hwf hv with herr | ⟨pwds', hok', hlen, hall⟩
  · rw [hok] at herr
    cases herr
  · rw [hok] at hok'
    injection hok' with he
    subst he
    refine ⟨hlen, ?_⟩
    intro pwd hpwd
    obtain ⟨core, hasm, hclen, hcmem, _, _⟩ := hall pwd hpwd
    exact ⟨core, hasm, hclen, hcmem⟩

/-- C9: `bits_of_entropy` returns `length * log2(pool_size)` for pool sizes
above 1 and positive lengths, and exactly 0 when the pool size is at most 1 or
the length is non-positive (`math.log2` abstracted as the parameter). -/
theorem C9_bits_of_entropy (log2 : Int → ℚ) (pool_size length : Int) :
    (pool_size ≤ 1 ∨ length ≤ 0 → bits_of_entropy log2 pool_size length = 0) ∧
    (1 < pool_size → 0 < length →
      bits_of_entropy log2 pool_size length = (length : ℚ) * log2 pool_size) := by
  constructor
  · intro h
    simp [bits_of_entropy, h]
  · intro h1 h2
    rw [bits_of_entropy, if_neg (by omega)]

/-- C10: the four class slices of any pool are pairwise disjoint, and for
every duplicate-free pool, well-formed active-class list and config accepted
by the validator, generation never reaches the `InsufficientUniqueChars`
failure and never draws from an empty class slice. -/
theorem C10_validated_generation_safe :
    (∀ (pool : List Char),
      ∀ n₁ ∈ (["lower", "upper", "digits", "symbols"] : List String),
      ∀ n₂ ∈ (["lower", "upper", "digits", "symbols"] : List String), n₁ ≠ n₂ →
      ∀ c ∈ (build_pool_map pool n₁).getD [], c ∉ (build_pool_map pool n₂).getD []) ∧
    (∀ (g : Gen) (pool : List Char) (names : List String) (a : Args),
      pool.Nodup → WFClasses names →
      ensure_requirements a.length names a.require_classes a.no_repeat pool = .ok () →
      generate_passwords g pool names a ≠ .error .insufficientUnique ∧
      generate_passwords g pool names a ≠ .error .emptyClassDraw) := by
  constructor
  · intro pool n₁ h₁ n₂ h₂ hne c hc₁ hc₂
    exact slice_disjoint h₁ h₂ hne hc₁ hc₂
  · intro g pool names a hp hwf hv
    rcases generate_passwords_cases (g := g) hp hwf hv with herr | ⟨pwds, hok, _, _⟩
    · rw [herr]
      exact ⟨(fun h => by cases h), (fun h => by cases h)⟩
    · rw [hok]
      exact ⟨(fun h => by cases h), (fun h => by cases h)⟩

/-- Witness for C1 at a concrete run: pool `abc`, class `lower`, length 2,
no-repeat, one password, zero random stream. -/
theorem C1_no_repeat_core_witness :
    (['a', 'b', 'c'] : List Char).Nodup ∧ WFClasses ["lower"] ∧
    ensure_requirements (2 : Int) ["lower"] true true ['a', 'b', 'c'] = .ok () ∧
    generate_passwords (fun _ => 0) ['a', 'b', 'c'] ["lower"]
      ⟨1, 2, true, false, true, ['<'], ['>']⟩ = .ok [['<', 'c', 'a', '>']] ∧
    ∀ pwd ∈ ([['<', 'c', 'a', '>']] : List (List Char)), ∃ core,
      pwd = ['<'] ++ core ++ ['>'] ∧ (core.length : Int) = (2 : Int) ∧ core.Nodup ∧
      ∀ c ∈ core, c ∈ (['a', 'b', 'c'] : List Char) :=
  ⟨by decide, by decide, by decide, by decide,
    C1_no_repeat_core (fun _ => 0) ['a', 'b', 'c'] ["lower"]
      ⟨1, 2, true, false, true, ['<'], ['>']⟩ [['<', 'c', 'a', '>']]
      (by decide) (by decide) (by decide) (by decide) (by decide)⟩

/-- Witness for C2 at the same concrete run. -/
theorem C2_class_coverage_witness :
    (['a', 'b', 'c'] : List Char).Nodup ∧ WFClasses ["lower"] ∧
    ensure_requirements (2 : Int) ["lower"] true true ['a', 'b', 'c'] = .ok () ∧
    ∀ pwd ∈ ([['<', 'c', 'a', '>']] : List (List Char)), ∃ core,
      pwd = ['<'] ++ core ++ ['>'] ∧ ∀ n ∈ (["lower"] : List String), n ≠ "url_safe" →
        ∃ c ∈ core, c ∈ (build_pool_map ['a', 'b', 'c'] n).getD [] :=
  ⟨by decide, by decide, by decide,
    C2_class_coverage (fun _ => 0) ['a', 'b', 'c'] ["lower"]
      ⟨1, 2, true, false, true, ['<'], ['>']⟩ [['<', 'c', 'a', '>']]
      (by decide) (by decide) (by decide) (by decide) (by decide) (by decide)⟩

/-- Witness for C3 at a concrete validation call. -/
theorem C3_validator_exact_witness :
    WFClasses ["lower"] ∧
    ensure_requirements 3 ["lower"] true true ['a', 'b', 'c'] =
      validate_spec 3 ["lower"] true true ['a', 'b', 'c'] :=
  ⟨by decide, C3_validator_exact 3 ["lower"] true true ['a', 'b', 'c'] (by decide)⟩

/-- Witness for the amended C4 at the plain url-safe selection. -/
theorem C4_url_safe_pool_witness :
    (⟨false, false, false, false, none, [], false, true⟩ : Selection).url_safe = true ∧
    (⟨false, false, false, false, none, [], false, true⟩ : Selection).exclude = [] ∧
    build_pool ⟨false, false, false, false, none, [], false, true⟩ =
      .ok (sorted_set URL_SAFE_UNRESERVED, ["url_safe"]) :=
  ⟨by decide, by decide,
    (C4_url_safe_pool ⟨false, false, false, false, none, [], false, true⟩
      (by decide) (by decide)).1⟩

/-- Witness for the amended C6 at the all-default selection. -/
theorem C6_default_classes_witness :
    build_pool ⟨false, false, false, false, none, [], false, false⟩ = .error .emptyPool ∨
      ∃ pool, build_pool ⟨false, false, false, false, none, [], false, false⟩ =
        .ok (pool, ["lower", "upper", "digits", "symbols"]) :=
  C6_default_classes.2 ⟨false, false, false, false, none, [], false, false⟩
    (by decide) (by decide) (by decide) (by decide) (by decide)

/-- Witness for C7 at the digits-only selection. -/
theorem C7_pool_invariants_witness :
    build_pool ⟨false, false, true, false, none, [], false, false⟩ =
      .ok (['0', '1', '2', '3', '4', '5', '6', '7', '8', '9'], ["digits"]) ∧
    (List.Sorted (fun a b : Char => a ≤ b)
        ['0', '1', '2', '3', '4', '5', '6', '7', '8', '9'] ∧
      (['0', '1', '2', '3', '4', '5', '6', '7', '8', '9'] : List Char).Nodup ∧
      (∀ c ∈ (['0', '1', '2', '3', '4', '5', '6', '7', '8', '9'] : List Char),
        c ∉ whitespace_chars) ∧
      (['0', '1', '2', '3', '4', '5', '6', '7', '8', '9'] : List Char) ≠ [] ∧
      (["digits"] : List String) ≠ []) :=
  ⟨by decide, C7_pool_invariants ⟨false, false, true, false, none, [], false, false⟩
    ['0', '1', '2', '3', '4', '5', '6', '7', '8', '9'] ["digits"] (by decide)⟩

/-- Witness for C8 at a concrete with-repetition run: two passwords of length
3 from pool `abc`, empty prefix and suffix. -/
theorem C8_count_and_assembly_witness :
    (['a', 'b', 'c'] : List Char).Nodup ∧ WFClasses ["lower"] ∧
    ensure_requirements (3 : Int) ["lower"] true false ['a', 'b', 'c'] = .ok () ∧
    generate_passwords (fun _ => 0) ['a', 'b', 'c'] ["lower"]
      ⟨2, 3, true, false, false, [], []⟩ = .ok [['a', 'a', 'a'], ['a', 'a', 'a']] ∧
    (([['a', 'a', 'a'], ['a', 'a', 'a']] : List (List Char)).length = 2 ∧
      ∀ pwd ∈ ([['a', 'a', 'a'], ['a', 'a', 'a']] : List (List Char)), ∃ core,
        pwd = [] ++ core ++ [] ∧ (core.length : Int) = (3 : Int) ∧
        ∀ c ∈ core, c ∈ (['a', 'b', 'c'] : List Char)) :=
  ⟨by decide, by decide, by decide, by decide,
    C8_count_and_assembly (fun _ => 0) ['a', 'b', 'c'] ["lower"]
      ⟨2, 3, true, false, false, [], []⟩ [['a', 'a', 'a'], ['a', 'a', 'a']]
      (by decide) (by decide) (by decide) (by decide)⟩

/-- Witness for C9: both branches evaluated at concrete arguments. -/
theorem C9_bits_of_entropy_witness :
    (1 < (4 : Int) ∧ 0 < (3 : Int)) ∧
    bits_of_entropy (fun _ => (7 : ℚ)) 4 3 = ((3 : Int) : ℚ) * (fun _ => (7 : ℚ)) 4 ∧
    bits_of_entropy (fun _ => (7 : ℚ)) 1 3 = 0 :=
  ⟨⟨by decide, by decide⟩,
    (C9_bits_of_entropy (fun _ => (7 : ℚ)) 4 3).2 (by decide) (by decide),
    (C9_bits_of_entropy (fun _ => (7 : ℚ)) 1 3).1 (Or.inl (by decide))⟩

/-- Witness for C10: slice disjointness evaluated on the pool `a!`, and the
no-bad-failure conclusion at a concrete validated run. -/
theorem C10_validated_generation_safe_witness :
    ('a' ∉ (build_pool_map ['a', '!'] "symbols").getD []) ∧
    (generate_passwords (fun _ => 0) ['a', 'b', 'c'] ["lower"]
        ⟨1, 2, true, false, true, ['<'], ['>']⟩ ≠ .error .insufficientUnique ∧
      generate_passwords (fun _ => 0) ['a', 'b', 'c'] ["lower"]
        ⟨1, 2, true, false, true, ['<'], ['>']⟩ ≠ .error .emptyClassDraw) :=
  ⟨C10_validated_generation_safe.1 ['a', '!'] "lower" (by decide) "symbols" (by decide)
      (by decide) 'a' (by decide),
    C10_validated_generation_safe.2 (fun _ => 0) ['a', 'b', 'c'] ["lower"]
      ⟨1, 2, true, false, true, ['<'], ['>']⟩ (by decide) (by decide) (by decide)⟩
